import Mathlib

/-!
Verification development for a Go-Back-N / Selective-Repeat / SACK reliable
transport implementation (a Scapy-automaton sender `GBNSender` and receiver
`GBNReceiver`).  The Python state machines are shallowly embedded below:
dictionaries become insertion-ordered association lists, the automaton
states become step functions, loops become fuel-based structural
recursions (the fuel supplied at each call site is an exact bound on the
number of iterations the Python loop performs, so the embedding agrees
with the source on every terminating run), and Python exceptions
(`KeyError`, `ValueError`, `IndexError`) become `Option`, with `none`
marking a crash.  Sequence numbers are natural numbers taken modulo
`M = 2 ^ n_bits`; Python's `%` on a positive modulus agrees with `Int.emod`
and `Nat.mod`, which are used accordingly.
-/

namespace GBNProof

/-- Payload bytes of a segment, as a list of byte values. -/
abbrev Payload := List Nat

/-- The GBN header together with the payload it carries.  Fields mirror
`GBN.fields_desc`; fields that are absent on the wire (hlen below their
threshold) read as their default 0 here. -/
structure Seg where
  type : Nat := 0
  options : Nat := 0
  len : Nat := 0
  hlen : Nat := 6
  num : Nat := 0
  win : Nat := 0
  blen : Nat := 0
  left1 : Nat := 0
  length1 : Nat := 0
  left2 : Nat := 0
  length2 : Nat := 0
  left3 : Nat := 0
  length3 : Nat := 0
  payload : Payload := []
deriving DecidableEq

/-- Build a DATA segment the way the sender does: `GBN(type="data",
options=opts, len=len(p), hlen=6, num=num, win=win)` followed by payload. -/
def mkData (opts num : Nat) (p : Payload) (win : Nat) : Seg :=
  { type := 0, options := opts, len := p.length, hlen := 6, num := num,
    win := win, payload := p }

/-- State of `GBNSender` (the fields set in `parse_args`, plus an `ended`
flag recording that the `END` state was reached). -/
structure Sender where
  win : Nat
  nbits : Nat
  q : List Payload
  buffer : List (Nat × Payload) := []
  current : Nat := 0
  unack : Nat := 0
  receiver_win : Nat
  Q42 : Bool
  SACK : Bool
  countAcks : Nat × Int := (0, -1)
  ended : Bool := false
deriving DecidableEq

/-- Python dict assignment `d[k] = v`: update in place if the key exists,
otherwise append (dicts preserve insertion order). -/
def dictInsert (b : List (Nat × Payload)) (k : Nat) (v : Payload) :
    List (Nat × Payload) :=
  if b.any (fun e => e.1 == k) then
    b.map (fun e => if e.1 = k then (k, v) else e)
  else b ++ [(k, v)]

/-- Python `d.pop(k, None)` with an integer key: remove the entry with that
key if present.  Dict keys are unique, so filtering is exact. -/
def dictPop (b : List (Nat × Payload)) (k : Int) : List (Nat × Payload) :=
  b.filter (fun e => decide ((e.1 : Int) ≠ k))

/-- Python `d[k]` as an optional lookup (`none` = `KeyError`). -/
def dictGet (b : List (Nat × Payload)) (k : Nat) : Option Payload :=
  (b.find? (fun e => e.1 == k)).map (fun e => e.2)

/-- The key popped by iteration `i` of the sender's ACK eviction loop:
`ack-i` when `ack-i >= 0`, else `ack - i % receiver_win + 2**n_bits - 1`
(Python precedence: `%` binds tighter than `-`). -/
def evictKey (M W ack i : Nat) : Int :=
  if (ack : Int) - i ≥ 0 then (ack : Int) - i
  else (ack : Int) - (i % W) + M - 1

/-- The eviction loop at the end of `ACK_IN`:
`for i in range(1, receiver_win+1): ... pop ...`. -/
def evict (M W ack : Nat) (b : List (Nat × Payload)) : List (Nat × Payload) :=
  (List.range' 1 W).foldl (fun acc i => dictPop acc (evictKey M W ack i)) b

/-- The Selective-Repeat duplicate-ack bookkeeping of `ACK_IN`: update
`count_acks` from the incoming ack number and report whether the
fast-retransmit fires (`count_acks[0] >= 2` after the update, upon which
both entries are reset to `0` and `-1`). -/
def srUpdate (ca : Nat × Int) (ack : Nat) : (Nat × Int) × Bool :=
  let ca1 : Nat × Int :=
    if (ack : Int) = ca.2 then (ca.1 + 1, ca.2) else (0, (ack : Int))
  if ca1.1 ≥ 2 then (((0 : Nat), (-1 : Int)), true) else (ca1, false)

/-- Python `range(a, b)`. -/
def pyRange (a b : Nat) : List Nat := List.range' a (b - a)

/-- Expansion of one SACK block `(left, length)` into its list of ranges,
exactly as the sender does it: split at `2**n_bits` when
`left + length >= 2**n_bits`, otherwise a single range. -/
def expandBlock (M l n : Nat) : List (List Nat) :=
  if l + n ≥ M then [pyRange l M, pyRange 0 (n - (pyRange l M).length)]
  else [pyRange l (l + n)]

/-- The blocks carried in the ACK, as read by the sender's `blen` dispatch
(blocks 1, then 1-2, then 1-3; any other `blen` carries none). -/
def sackBlocksOf (pkt : Seg) : List (Nat × Nat) :=
  if pkt.blen = 1 then [(pkt.left1, pkt.length1)]
  else if pkt.blen = 2 then
    [(pkt.left1, pkt.length1), (pkt.left2, pkt.length2)]
  else if pkt.blen = 3 then
    [(pkt.left1, pkt.length1), (pkt.left2, pkt.length2),
     (pkt.left3, pkt.length3)]
  else []

/-- The flattened list `flat_rec_acks` of individually acknowledged
sequence numbers. -/
def flatRecAcks (M : Nat) (pkt : Seg) : List Nat :=
  (((sackBlocksOf pkt).map (fun bl => expandBlock M bl.1 bl.2)).flatten).flatten

/-- The SACK-driven retransmission selection of `ACK_IN`: for
`blen ∈ {1,2,3}`, flatten the blocks, find `final_index =
seq_numbers_send.index(flat_rec_acks[-1])` and return the buffer keys
before that index that are not SACKed.  `none` models the `IndexError`
when the flattened list is empty and the `ValueError` when its last
element is not a buffer key. -/
def sackRetrans (M : Nat) (pkt : Seg) (b : List (Nat × Payload)) :
    Option (List Nat) :=
  if pkt.blen = 1 ∨ pkt.blen = 2 ∨ pkt.blen = 3 then
    let flat := flatRecAcks M pkt
    match flat.getLast? with
    | none => none
    | some last =>
      let L := b.map (fun e => e.1)
      if last ∈ L then
        some ((L.take (L.indexOf last)).filter (fun k => decide (k ∉ flat)))
      else none
  else some []

/-- The `ACK_IN` state of the sender.  Returns the new sender state and the
list of segments transmitted while handling the ACK, or `none` if the
handler raises an uncaught exception. -/
def ackIn (s : Sender) (pkt : Seg) : Option (Sender × List Seg) :=
  if pkt.type = 0 then
    -- data type received instead of ACK: log and go back to SEND
    some (s, [])
  else
    let M := 2 ^ s.nbits
    let s1 := { s with receiver_win := pkt.win }
    let ack := pkt.num
    let s2 :=
      if pkt.options = 0 then { s1 with SACK := false }
      else if pkt.options = 1 then { s1 with SACK := true }
      else s1
    let step : Option ((Nat × Int) × List Seg) :=
      if s2.Q42 then
        let r := srUpdate s2.countAcks ack
        if r.2 then
          match dictGet s2.buffer ack with
          | none => none
          | some p => some (r.1, [mkData 0 ack p s2.win])
        else some (r.1, [])
      else if s2.SACK then
        match sackRetrans M pkt s2.buffer with
        | none => none
        | some ks =>
          some (s2.countAcks,
            ks.map (fun k => mkData 1 k ((dictGet s2.buffer k).getD []) s2.win))
      else some (s2.countAcks, [])
    match step with
    | none => none
    | some (ca, emits) =>
      some ({ s2 with
                countAcks := ca,
                unack := ack,
                buffer := evict M s2.receiver_win ack s2.buffer }, emits)

/-- One pass of the `SEND` state: transmit the next queued payload if the
window has room, or end the sender when the queue is drained and
everything is acknowledged. -/
def sendStep (s : Sender) : Sender × List Seg :=
  if s.buffer.length < min s.win s.receiver_win then
    match s.q with
    | p :: rest =>
      let opts := if s.SACK then 1 else 0
      ({ s with
           q := rest,
           buffer := dictInsert s.buffer s.current p,
           current := (s.current + 1) % (2 ^ s.nbits) },
       [mkData opts s.current p s.win])
    | [] =>
      if s.unack = s.current then ({ s with ended := true }, []) else (s, [])
  else (s, [])

/-- Timeout transition followed by the `RETRANSMIT` state: reset the
duplicate-ack counter and retransmit every buffered segment in insertion
order. -/
def timeoutStep (s : Sender) : Sender × List Seg :=
  let s1 := { s with countAcks := ((0 : Nat), (-1 : Int)) }
  (s1, s1.buffer.map (fun e =>
     mkData (if s1.SACK then 1 else 0) e.1 e.2 s1.win))

/-- State of `GBNReceiver` (fields of `parse_args`, the output file as the
list of appended payloads, and an `ended` flag for the `END` state). -/
structure Receiver where
  win : Nat
  nbits : Nat
  psize : Nat
  next : Nat := 0
  endReceiver : Bool := false
  endNum : Int := -1
  buffer : List Payload := []
  buffer_seq : List Nat := []
  buffer_size : Nat := 0
  out : List Payload := []
  ended : Bool := false
deriving DecidableEq

/-- The mutable state of the receiver's buffer-drain loop. -/
structure DrainSt where
  next : Nat
  size : Nat
  seqs : List Nat
  bufs : List Payload
  out : List Payload
deriving DecidableEq

/-- One execution of `for itemSeq, item in zip(self.buffer_seq, self.buffer)`:
the iterator index `k` advances every step; reading uses the current
(mutated) lists, so a removal makes the element sliding into position `k`
be skipped, exactly as in CPython.  On a match the payload is delivered,
`buffer.remove(item)` erases the first payload equal by value,
`buffer_seq.remove(itemSeq)` erases the sequence number, and `next`
advances.  The fuel passed at the call site is `seqs.length + 1`, an exact
bound on the number of iterations. -/
def forPass (M : Nat) : Nat → Nat → DrainSt → DrainSt
  | 0, _, st => st
  | fuel + 1, k, st =>
    match st.seqs[k]?, st.bufs[k]? with
    | some s, some b =>
      if s = st.next then
        forPass M fuel (k + 1)
          { next := (st.next + 1) % M, size := st.size - 1,
            seqs := if s ∈ st.seqs then st.seqs.erase s else st.seqs,
            bufs := st.bufs.erase b,
            out := st.out ++ [b] }
      else forPass M fuel (k + 1) st
    | _, _ => st

/-- The `while self.buffer_size > 0` drain loop: run a `forPass` whenever
`next` is buffered, otherwise break.  Every iteration that recurses has
removed at least one buffered element, so the call-site fuel
`seqs.length + 1` is exact. -/
def whileDrain (M : Nat) : Nat → DrainSt → DrainSt
  | 0, st => st
  | fuel + 1, st =>
    if st.size > 0 then
      if st.next ∈ st.seqs then
        whileDrain M fuel (forPass M (st.seqs.length + 1) 0 st)
      else st
    else st

/-- The plain cumulative ACK the receiver sends when the incoming DATA had
`options = 0`. -/
def mkAck (r : Receiver) : Seg :=
  { type := 1, options := 0, len := 0, hlen := 6, num := r.next, win := r.win }

/-- Sorting of `buffer_seq` into a single modular-ascending run: partition
at `max_value/2`, sort both halves, and pick the concatenation order by
the wrap heuristic. -/
def sortedBufferSeq (M win : Nat) (seqs : List Nat) : List Nat :=
  let over := seqs.filter (fun i => decide (2 * i ≥ M))
  let under := seqs.filter (fun i => decide (¬ 2 * i ≥ M))
  let overS := over.insertionSort (· ≤ ·)
  let underS := under.insertionSort (· ≤ ·)
  match overS.head?, underS.head? with
  | some o0, some u0 =>
    if (o0 : Int) ≥ (M : Int) - win ∧ u0 ≤ win then overS ++ underS
    else underS ++ overS
  | some _, none => overS
  | none, some _ => underS
  | none, none => []

/-- The `ranges` computation of the receiver's SACK construction: collect
both elements of every consecutive pair `(a, b)` of the sorted list with
`a+1 != b and a != 2**n_bits - 1`. -/
def rangesOf (M : Nat) (l : List Nat) : List Nat :=
  ((l.zip l.tail).filter
      (fun p => decide (p.1 + 1 ≠ p.2 ∧ p.1 ≠ M - 1))).foldr
    (fun p acc => p.1 :: p.2 :: acc) []

/-- Python `l[0:1] + ranges + l[-1:]`: the start/end points of the blocks. -/
def startEnd (M : Nat) (l : List Nat) : List Nat :=
  l.take 1 ++ rangesOf M l ++ l.drop (l.length - 1)

/-- Wrap fix for a block length computed by ordinary subtraction: add
`2**n_bits` when negative. -/
def fixLen (M : Nat) (x : Int) : Int := if x < 0 then (M : Int) + x else x

/-- The SACK segment the receiver sends when the incoming DATA had
`options = 1`: blocks from the start/end points, lengths wrap-corrected. -/
def mkSack (M : Nat) (r : Receiver) : Seg :=
  let se := startEnd M (sortedBufferSeq M r.win r.buffer_seq)
  let base : Seg :=
    { type := 1, options := 1, len := 0, hlen := 6, num := r.next,
      win := r.win }
  if se.length = 2 then
    { base with
      hlen := 9,
      blen := 1,
      left1 := se.getD 0 0,
      length1 := (fixLen M ((se.getD 1 0 : Int) - se.getD 0 0 + 1)).toNat }
  else if se.length = 4 then
    { base with
      hlen := 12,
      blen := 2,
      left1 := se.getD 0 0,
      length1 := (fixLen M ((se.getD 1 0 : Int) - se.getD 0 0 + 1)).toNat,
      left2 := se.getD 2 0,
      length2 := (fixLen M ((se.getD 3 0 : Int) - se.getD 2 0 + 1)).toNat }
  else if se.length ≥ 6 then
    { base with
      hlen := 15,
      blen := 3,
      left1 := se.getD 0 0,
      length1 := (fixLen M ((se.getD 1 0 : Int) - se.getD 0 0 + 1)).toNat,
      left2 := se.getD 2 0,
      length2 := (fixLen M ((se.getD 3 0 : Int) - se.getD 2 0 + 1)).toNat,
      left3 := se.getD 4 0,
      length3 := (fixLen M ((se.getD 5 0 : Int) - se.getD 4 0 + 1)).toNat }
  else base

/-- The `DATA_IN` state of the receiver.  `dataLost` and `ackLost` are the
two Bernoulli draws of the loss simulator (`random.random() < p_data`,
`random.random() < p_ack`).  Returns the new receiver state and the ACK
segments actually put on the wire. -/
def dataIn (r : Receiver) (pkt : Seg) (dataLost ackLost : Bool) :
    Receiver × List Seg :=
  if dataLost then (r, [])
  else if pkt.type = 0 then
    let M := 2 ^ r.nbits
    let r1 :=
      if pkt.payload.length < r.psize then
        { r with endReceiver := true, endNum := (((pkt.num + 1) % M : Nat) : Int) }
      else r
    let r2 :=
      if pkt.num = r1.next then
        let st0 : DrainSt :=
          { next := (r1.next + 1) % M, size := r1.buffer_size,
            seqs := r1.buffer_seq, bufs := r1.buffer,
            out := r1.out ++ [pkt.payload] }
        let st := whileDrain M (st0.seqs.length + 1) st0
        { r1 with
          next := st.next,
          buffer_size := st.size,
          buffer_seq := st.seqs,
          buffer := st.bufs,
          out := st.out }
      else
        let firstE : Int :=
          if (pkt.num : Int) < (r1.next : Int) then (r1.next : Int) + 1 - M
          else (r1.next : Int) + 1
        let lastE : Int :=
          if (pkt.num : Int) < (r1.next : Int) then
            (r1.next : Int) + r1.win - 1 - M
          else (r1.next : Int) + r1.win - 1
        if firstE ≤ (pkt.num : Int) ∧ (pkt.num : Int) ≤ lastE then
          if pkt.num ∈ r1.buffer_seq then r1
          else
            { r1 with
              buffer_size := r1.buffer_size + 1,
              buffer := r1.buffer ++ [pkt.payload],
              buffer_seq := r1.buffer_seq ++ [pkt.num] }
        else r1
    if ackLost then (r2, [])
    else
      let ackSeg := if pkt.options = 0 then mkAck r2 else mkSack M r2
      let r3 :=
        if r2.endReceiver ∧ r2.endNum = (r2.next : Int) then
          { r2 with ended := true }
        else r2
      (r3, [ackSeg])
  else
    -- received an ACK while expecting DATA: log and go back to waiting
    (r, [])

/-- A two-endpoint system: sender, receiver and the two directions of the
unreliable IP channel (best-effort, unordered, lossy). -/
structure World where
  snd : Sender
  rcv : Receiver
  dataCh : List Seg
  ackCh : List Seg
deriving DecidableEq

/-- Scheduler events of the event loops and of the network: a `SEND`-state
pass, a sender timeout, delivery of the `i`-th in-flight DATA segment to
the receiver, delivery of the `i`-th in-flight ACK to the sender.
Segments never delivered are lost; out-of-index delivery chooses which
segment the unordered channel hands over next. -/
inductive Ev where
  | send
  | tmo
  | dData (i : Nat)
  | dAck (i : Nat)

/-- One system step; `none` when an endpoint's handler crashes. -/
def sysStep (w : World) (e : Ev) : Option World :=
  match e with
  | .send =>
    let r := sendStep w.snd
    some { w with snd := r.1, dataCh := w.dataCh ++ r.2 }
  | .tmo =>
    let r := timeoutStep w.snd
    some { w with snd := r.1, dataCh := w.dataCh ++ r.2 }
  | .dData i =>
    match w.dataCh[i]? with
    | none => some w
    | some seg =>
      let r := dataIn w.rcv seg false false
      some { w with
               rcv := r.1,
               dataCh := w.dataCh.eraseIdx i,
               ackCh := w.ackCh ++ r.2 }
  | .dAck i =>
    match w.ackCh[i]? with
    | none => some w
    | some seg =>
      match ackIn w.snd seg with
      | none => none
      | some r =>
        some { w with
                 snd := r.1,
                 ackCh := w.ackCh.eraseIdx i,
                 dataCh := w.dataCh ++ r.2 }

/-- Run a schedule of events from a starting world. -/
def sysRun (w : World) (es : List Ev) : Option World :=
  match es with
  | [] => some w
  | e :: rest =>
    match sysStep w e with
    | none => none
    | some w2 => sysRun w2 rest

/-!
Definitions written from the specification text, for comparison with the
embedded code.
-/

/-- Modelled from the spec: the modular distance `(a − b) mod M`, the
forward distance from `b` to `a` in the cyclic sequence space. -/
def mdist (M a b : Nat) : Nat := (a + M - b) % M

/-- Modelled from the spec: the cumulative-ack eviction of step 7 of the
sender's ACK handling — for each `i` in `[1, W_r]`, remove the entry with
key `(ack − i) mod M` from the buffer (absent keys are ignored). -/
def specEvict (M W ack : Nat) (b : List (Nat × Payload)) :
    List (Nat × Payload) :=
  b.filter (fun e =>
    (List.range' 1 W).all (fun i =>
      decide ((e.1 : Int) ≠ ((ack : Int) - i) % (M : Int))))

/-- Modelled from the spec: the contiguous modular range `[a, b)` mod `M`,
listed in ascending modular order starting at `a`. -/
def specModRange (M a b : Nat) : List Nat :=
  (List.range' 0 ((b + M - a) % M)).map (fun j => (a + j) % M)

/-- Modelled from the spec: the SACK split positions — consecutive
elements `a, b` of the sorted list are split wherever `b ≠ (a+1) mod M`
(so `a = M−1` followed by `b = 0` is not a split, but `a = M−1` followed
by `b ≠ 0` is), collected exactly like the `ranges` list. -/
def specRangesOf (M : Nat) (l : List Nat) : List Nat :=
  ((l.zip l.tail).filter
      (fun p => decide (p.2 ≠ (p.1 + 1) % M))).foldr
    (fun p acc => p.1 :: p.2 :: acc) []

/-- Modelled from the spec: expansion of one SACK block `(left, length)`
into its modular sequence range. -/
def specExpandBlock (M l n : Nat) : List Nat :=
  (List.range' l n).map (fun x => x % M)

/-!
Concrete instances used by the theorems below.
-/

/-- Reachable sender state with `n_bits = 2`: the sender wrapped once, the
in-flight buffer holds keys `3, 0, 1` (payloads of chunks 4-6) with
`unack = 3`, `current = 2`. -/
def exS1 : Sender :=
  { win := 3, nbits := 2, q := [], buffer := [(3, [3]), (0, [4]), (1, [5])],
    current := 2, unack := 3, receiver_win := 3, Q42 := false, SACK := false }

/-- The cumulative ACK `num = 2`, `win = 3` an honest receiver sends after
delivering chunks 1-6 of `exS1`'s run in order. -/
def exP1 : Seg := { type := 1, options := 0, num := 2, win := 3 }

/-- Initial system for a plain cumulative run: `n_bits = 2`, both windows
3, six one-byte payload chunks. -/
def exW2 : World :=
  { snd := { win := 3, nbits := 2, q := [[0], [1], [2], [3], [4], [5]],
             receiver_win := 3, Q42 := false, SACK := false },
    rcv := { win := 3, nbits := 2, psize := 1 },
    dataCh := [], ackCh := [] }

/-- Honest lossy schedule for `exW2`: three sends, in-order delivery of
all DATA, the receiver's first two ACKs are lost, ACK 3 arrives; three
more sends (wrapping), in-order delivery, two more ACKs lost, ACK 2
arrives. -/
def exSched2 : List Ev :=
  [.send, .send, .send, .dData 0, .dData 0, .dData 0, .dAck 2,
   .send, .send, .send, .dData 0, .dData 0, .dData 0, .dAck 4]

/-- Reachable receiver state: `n_bits = 3`, `W = 4`, `expected = 2`, and
segments 4, 5, 3 were buffered out of order in that arrival order with
payloads `[1]`, `[2]`, `[1]` — segments 3 and 4 carry equal bytes. -/
def exR6 : Receiver :=
  { win := 4, nbits := 3, psize := 1, next := 2,
    buffer_seq := [4, 5, 3], buffer := [[1], [2], [1]], buffer_size := 3 }

/-- The in-order DATA segment `num = 2` with payload `[3]` arriving at
`exR6`. -/
def exP6 : Seg := { type := 0, options := 0, num := 2, payload := [3] }

/-- Initial system for a Selective-Repeat run: `n_bits = 5`, sender window
5, receiver window 6, ten one-byte payload chunks. -/
def exW10 : World :=
  { snd := { win := 5, nbits := 5,
             q := [[0], [1], [2], [3], [4], [5], [6], [7], [8], [9]],
             receiver_win := 5, Q42 := true, SACK := false },
    rcv := { win := 6, nbits := 5, psize := 1 },
    dataCh := [], ackCh := [] }

/-- Honest schedule for `exW10` on the unordered channel: segments 0-4 are
sent; DATA 0 arrives, then DATA 2, 3, 4 overtake DATA 1 (three duplicate
ACKs 1 are emitted), then DATA 1 arrives (ACK 5).  ACK 5 overtakes the
duplicate ACKs; the sender evicts everything and sends 5-9; then the three
stale duplicate ACKs 1 arrive. -/
def exSched10 : List Ev :=
  [.send, .send, .send, .send, .send,
   .dData 0, .dData 1, .dData 1, .dData 1, .dData 0,
   .dAck 4, .send, .send, .send, .send, .send,
   .dAck 0, .dAck 0, .dAck 0]

/-!
Claim theorems.
-/

/-- C1.  The claim states that `ACK_IN` removes, for each `i ∈ [1, W_r]`,
exactly the buffer entry with key `(ack − i) mod 2^n_bits`.  The code
instead pops `ack - i % receiver_win + 2^n_bits - 1` when `ack - i < 0`
(operator precedence), so at the reachable state `exS1` with ACK
`num = 2, win = 3` it removes keys 1 and 0 but misses the wrapped key
`(2 − 3) mod 4 = 3`: the resulting buffer keeps key 3, while the
specified eviction leaves the buffer empty. -/
theorem C1_eviction_misses_wrapped_key :
    (ackIn exS1 exP1).map (fun r => r.1.buffer) = some [(3, [3])]
    ∧ specEvict 4 3 2 exS1.buffer = []
    ∧ ([(3, [3])] : List (Nat × Payload)) ≠ [] := by
  refine ⟨by decide, by decide, by decide⟩

/-- C2.  The claim states that in every reachable sender state the buffer
keys are exactly the modular range `[unack, current)`.  Running the honest
schedule `exSched2` (all DATA delivered in order, several ACKs lost)
reaches a sender state with `unack = current = 2` whose buffer still holds
the stale wrapped key 3, because the eviction loop of C1 never pops it;
the specified range `[2, 2)` is empty. -/
theorem C2_buffer_range_invariant_fails :
    (sysRun exW2 exSched2).map
        (fun w => (w.snd.buffer.map Prod.fst, w.snd.unack, w.snd.current))
      = some ([3], 2, 2)
    ∧ specModRange 4 2 2 = []
    ∧ ([3] : List Nat) ≠ specModRange 4 2 2 := by
  refine ⟨by decide, by decide, by decide⟩

/-- C4.  The claim states that the SACK split happens at every consecutive
pair `(a, b)` with `b ≠ (a+1) mod M`, the sole exception being
`a = M−1, b = 0`.  The code's filter also suppresses the split for
`a = M−1` followed by `b ≠ 0`: on the reachable sorted buffer list
`[30, 31, 2]` (`n_bits = 5`, `expected = 29`, `W = 6`) the code produces
no split at `(31, 2)` and emits the single block `(30, 5)` — which covers
the never-received numbers 0 and 1 — while the specified split yields the
points `[31, 2]` and hence the blocks `(30, 2)` and `(2, 1)`. -/
theorem C4_wrap_split_exception_too_broad :
    rangesOf 32 [30, 31, 2] = []
    ∧ specRangesOf 32 [30, 31, 2] = [31, 2]
    ∧ (mkSack 32 { win := 6, nbits := 5, psize := 1, next := 29,
                   buffer_seq := [30, 31, 2] }).blen = 1
    ∧ (mkSack 32 { win := 6, nbits := 5, psize := 1, next := 29,
                   buffer_seq := [30, 31, 2] }).left1 = 30
    ∧ (mkSack 32 { win := 6, nbits := 5, psize := 1, next := 29,
                   buffer_seq := [30, 31, 2] }).length1 = 5 := by
  refine ⟨by decide, by decide, by decide, by decide, by decide⟩

/-- C6.  The claim states that the drain after an in-order delivery
delivers, for each buffered key reached, that key's buffered payload and
removes exactly that entry.  Because `buffer.remove(item)` removes the
first payload equal *by value*, duplicate payloads desynchronise the two
parallel lists: at `exR6` (3 ↦ [1], 4 ↦ [1], 5 ↦ [2]) the in-order DATA 2
makes the code append `[3], [1], [2], [1]` to the output, delivering `[2]`
for key 4 and `[1]` for key 5, while delivering each key's own buffered
payload would append `[3], [1], [1], [2]`. -/
theorem C6_drain_delivers_wrong_payload :
    (dataIn exR6 exP6 false false).1.out = [[3], [1], [2], [1]]
    ∧ ([[3], [1], [2], [1]] : List Payload) ≠ [[3], [1], [1], [2]] := by
  refine ⟨by decide, by decide⟩

/-- C10.  The claim states that whenever the Selective-Repeat fast
retransmit fires, `ack` is a key of the in-flight buffer, so `buffer[ack]`
cannot fail.  On the honest unordered-channel schedule `exSched10` the
third stale duplicate ACK 1 arrives after ACK 5 already evicted segment 1,
the counter reaches 2, and the unguarded `buffer[ack]` lookup raises
`KeyError` — the run crashes (`none`). -/
theorem C10_fast_retransmit_lookup_crashes :
    sysRun exW10 exSched10 = none := by decide

/-- C9.  If the sender receives a segment whose type is DATA, or the
receiver receives a segment whose type is ACK that survives the loss
simulator, the endpoint only logs and returns to waiting: the state is
unchanged and nothing is emitted. -/
theorem C9_protocol_violation_only_logged
    (s : Sender) (r : Receiver) (p q : Seg) (al : Bool)
    (hp : p.type = 0) (hq : q.type = 1) :
    ackIn s p = some (s, []) ∧ dataIn r q false al = (r, []) := by
  constructor
  · simp [ackIn, hp]
  · simp [dataIn, hq]

/-- Witness for C9 at a concrete sender, receiver and pair of segments. -/
theorem C9_protocol_violation_only_logged_witness :
    ackIn exS1 { type := 0, num := 7 } = some (exS1, [])
    ∧ dataIn exR6 { type := 1, num := 7 } false false = (exR6, []) :=
  C9_protocol_violation_only_logged exS1 exR6
    { type := 0, num := 7 } { type := 1, num := 7 } false rfl rfl

/-!
Helper lemmas about the eviction loop.
-/

/-- Folding `dictPop` over keyed indices is one filter against all keys. -/
theorem foldl_dictPop_eq_filter (f : Nat → Int) (is : List Nat)
    (b : List (Nat × Payload)) :
    is.foldl (fun acc i => dictPop acc (f i)) b
      = b.filter (fun e => is.all (fun i => decide ((e.1 : Int) ≠ f i))) := by
  induction is generalizing b with
  | nil => simp
  | cons i is ih =>
    rw [List.foldl_cons, ih, dictPop, List.filter_filter]
    apply List.filter_congr
    intro e _
    simp [Bool.and_comm]

/-- The eviction loop is one filter against its key list. -/
theorem evict_eq_filter (M W ack : Nat) (b : List (Nat × Payload)) :
    evict M W ack b
      = b.filter (fun e =>
          (List.range' 1 W).all
            (fun i => decide ((e.1 : Int) ≠ evictKey M W ack i))) :=
  foldl_dictPop_eq_filter (evictKey M W ack) (List.range' 1 W) b

/-- Evicting twice with the same parameters is the same as evicting once. -/
theorem evict_idem (M W ack : Nat) (b : List (Nat × Payload)) :
    evict M W ack (evict M W ack b) = evict M W ack b := by
  simp only [evict_eq_filter, List.filter_filter]
  apply List.filter_congr
  intro e _
  simp [Bool.and_self]

/-- State effect of `ACK_IN` on a genuine ACK, whatever mode branch is
taken: `unack` becomes the ack number, `current` and `n_bits` are
untouched, and the buffer is the eviction of the old buffer. -/
theorem ackIn_state (s : Sender) (p : Seg) (t : Sender × List Seg)
    (hp : ¬ p.type = 0) (h : ackIn s p = some t) :
    t.1.unack = p.num ∧ t.1.current = s.current ∧ t.1.nbits = s.nbits ∧
    t.1.buffer = evict (2 ^ s.nbits) p.win p.num s.buffer := by
  simp only [ackIn, if_neg hp] at h
  split at h
  · exact absurd h (by simp)
  · rw [Option.some.injEq] at h
    subst h
    by_cases h0 : p.options = 0 <;> by_cases h1 : p.options = 1 <;>
      simp [h0, h1]

/-- C8 counterexample state: SACK mode, `n_bits = 3`, buffer keys
`[6, 7, 0, 1]` (`unack = 6`, `current = 2`). -/
def exS8 : Sender :=
  { win := 6, nbits := 3, q := [],
    buffer := [(6, [6]), (7, [7]), (0, [0]), (1, [1])],
    current := 2, unack := 6, receiver_win := 6, Q42 := false, SACK := true }

/-- The SACK ACK `num = 6, win = 6` with one block `(7, 3)` that the
receiver sends for `expected = 6` and out-of-order keys `{7, 0, 1}`. -/
def exP8 : Seg :=
  { type := 1, options := 1, num := 6, win := 6,
    blen := 1, left1 := 7, length1 := 3 }

/-- C8, counterexample.  The claim states that processing the same ACK a
second time leaves `unack`, `current`, `buffer` as after the first, only
the Selective-Repeat counter possibly differing.  At `exS8` the first
processing succeeds (the overreaching eviction pops the still-unacked
wrapped keys 0 and 1), but the second processing crashes: the last SACKed
number 1 is no longer a buffer key, so
`seq_numbers_send.index(flat_rec_acks[-1])` raises `ValueError` and there
is no resulting state at all. -/
theorem C8_second_processing_crashes :
    (ackIn exS8 exP8).isSome = true
    ∧ (ackIn exS8 exP8).bind (fun r => ackIn r.1 exP8) = none := by
  refine ⟨by decide, by decide⟩

/-- C8, amended.  Whenever processing the same ACK a second time completes
without error, `unack`, `current` and the buffer equal their values after
the first processing (in SACK mode the second processing can instead crash
on `index`, as the counterexample shows; only the duplicate-ack counter in
Selective-Repeat mode may otherwise differ). -/
theorem C8_repeat_ack_state_idempotent
    (s s1 s2 : Sender) (p : Seg) (e1 e2 : List Seg)
    (h1 : ackIn s p = some (s1, e1)) (h2 : ackIn s1 p = some (s2, e2)) :
    s2.unack = s1.unack ∧ s2.current = s1.current ∧ s2.buffer = s1.buffer := by
  by_cases hp : p.type = 0
  · simp only [ackIn, if_pos hp, Option.some.injEq, Prod.mk.injEq] at h1 h2
    obtain ⟨rfl, -⟩ := h1
    obtain ⟨rfl, -⟩ := h2
    exact ⟨rfl, rfl, rfl⟩
  · obtain ⟨hu1, hc1, hn1, hb1⟩ := ackIn_state s p (s1, e1) hp h1
    obtain ⟨hu2, hc2, hn2, hb2⟩ := ackIn_state s1 p (s2, e2) hp h2
    refine ⟨by rw [hu2, hu1], hc2, ?_⟩
    rw [hb2, hb1, hn1, evict_idem]

/-- Plain-mode witness state for C8: buffer keys `[0, 1]`. -/
def exS8w : Sender :=
  { win := 2, nbits := 2, q := [], buffer := [(0, [1]), (1, [2])],
    current := 2, unack := 0, receiver_win := 2, Q42 := false, SACK := false }

/-- The state after `exS8w` processes the plain ACK `num = 1, win = 2`. -/
def exS8w1 : Sender :=
  { win := 2, nbits := 2, q := [], buffer := [(1, [2])],
    current := 2, unack := 1, receiver_win := 2, Q42 := false, SACK := false }

/-- Witness for the amended C8 at a concrete plain-mode sender state. -/
theorem C8_repeat_ack_state_idempotent_witness :
    exS8w1.unack = exS8w1.unack ∧ exS8w1.current = exS8w1.current
    ∧ exS8w1.buffer = exS8w1.buffer :=
  C8_repeat_ack_state_idempotent exS8w exS8w1 exS8w1
    { type := 1, options := 0, num := 1, win := 2 } [] []
    (by decide) (by decide)

/-- When the fast retransmit fires, the counter is reset to `(0, -1)`. -/
theorem srUpdate_fire_reset (ca : Nat × Int) (a : Nat)
    (h : (srUpdate ca a).2 = true) : (srUpdate ca a).1 = (0, -1) := by
  by_cases h1 : (a : Int) = ca.2 <;> by_cases h2 : ca.1 + 1 ≥ 2 <;>
    simp_all [srUpdate]

/-- C5.  Selective-Repeat duplicate-ack handling of `ACK_IN`: an ACK equal
to the recorded value increments the count, any other ACK resets the
count to 0 and records the new value; the retransmission fires exactly
when the count reaches 2 — i.e. on the 3rd consecutive identical ack —
and then `ACK_IN` emits the single segment `buffer[ack]` as DATA once and
resets both counter entries. -/
theorem C5_selective_repeat_fast_retransmit
    (s : Sender) (p : Seg) (hq : s.Q42 = true) (ht : ¬ p.type = 0) :
    (∀ v : Nat × Int,
      ((p.num : Int) = v.2 →
        srUpdate v p.num
          = if v.1 + 1 ≥ 2 then (((0 : Nat), (-1 : Int)), true)
            else ((v.1 + 1, v.2), false))
      ∧ ((p.num : Int) ≠ v.2 →
        srUpdate v p.num = ((0, (p.num : Int)), false)))
    ∧ (∀ a b c : Nat,
        (srUpdate (0, -1) a).2 = false
        ∧ (srUpdate (srUpdate (0, -1) a).1 b).2 = false
        ∧ ((srUpdate (srUpdate (srUpdate (0, -1) a).1 b).1 c).2 = true
            ↔ a = b ∧ b = c))
    ∧ ((srUpdate s.countAcks p.num).2 = false →
        (ackIn s p).map (fun r => (r.1.countAcks, r.2))
          = some ((srUpdate s.countAcks p.num).1, []))
    ∧ (∀ pay : Payload, (srUpdate s.countAcks p.num).2 = true →
        dictGet s.buffer p.num = some pay →
        (ackIn s p).map (fun r => (r.1.countAcks, r.2))
          = some (((0 : Nat), (-1 : Int)), [mkData 0 p.num pay s.win])) := by
  have hQ2 : ∀ s2 : Sender, s2.Q42 = s.Q42 → s2.Q42 = true := by
    intro s2 h; rw [h, hq]
  refine ⟨?_, ?_, ?_, ?_⟩
  · intro v
    constructor
    · intro h
      unfold srUpdate
      rw [if_pos h]
    · intro h
      unfold srUpdate
      rw [if_neg h]
      simp
  · intro a b c
    have hna : ¬ ((a : Int) = -1) := by omega
    have h1 : srUpdate (0, -1) a = ((0, (a : Int)), false) := by
      simp [srUpdate, hna]
    refine ⟨by rw [h1], ?_, ?_⟩
    · rw [h1]
      by_cases hba : b = a
      · subst hba
        simp [srUpdate]
      · have hbi : ¬ ((b : Int) = (a : Int)) := by exact_mod_cast hba
        simp [srUpdate, hbi]
    · rw [h1]
      by_cases hba : b = a
      · subst hba
        have h2 : srUpdate ((0 : Nat), (b : Int)) b
            = (((1 : Nat), (b : Int)), false) := by
          simp [srUpdate]
        rw [h2]
        by_cases hcb : c = b
        · subst hcb
          have h3 : srUpdate ((1 : Nat), (c : Int)) c
              = (((0 : Nat), (-1 : Int)), true) := by
            simp [srUpdate]
          rw [h3]
          simp
        · have hci : ¬ ((c : Int) = (b : Int)) := by exact_mod_cast hcb
          have h3 : srUpdate ((1 : Nat), (b : Int)) c
              = (((0 : Nat), (c : Int)), false) := by
            simp [srUpdate, hci]
          rw [h3]
          simp
          omega
      · have hbi : ¬ ((b : Int) = (a : Int)) := by exact_mod_cast hba
        have h2 : srUpdate ((0 : Nat), (a : Int)) b
            = (((0 : Nat), (b : Int)), false) := by
          simp [srUpdate, hbi]
        rw [h2]
        by_cases hcb : c = b
        · subst hcb
          have h3 : srUpdate ((0 : Nat), (c : Int)) c
              = (((1 : Nat), (c : Int)), false) := by
            simp [srUpdate]
          rw [h3]
          simp
          omega
        · have hci : ¬ ((c : Int) = (b : Int)) := by exact_mod_cast hcb
          have h3 : srUpdate ((0 : Nat), (b : Int)) c
              = (((0 : Nat), (c : Int)), false) := by
            simp [srUpdate, hci]
          rw [h3]
          simp
          omega
  · intro hfire
    simp only [ackIn, if_neg ht]
    by_cases h0 : p.options = 0 <;> by_cases h1 : p.options = 1 <;>
      simp [h0, h1, hq, hfire]
  · intro pay hfire hget
    simp only [ackIn, if_neg ht]
    by_cases h0 : p.options = 0 <;> by_cases h1 : p.options = 1 <;>
      simp [h0, h1, hq, hfire, hget, srUpdate_fire_reset _ _ hfire]

/-- Witness sender for C5: Selective-Repeat mode, two identical ACKs 3
already counted, segment 3 still in flight. -/
def exS5 : Sender :=
  { win := 4, nbits := 3, q := [], buffer := [(3, [9])], current := 4,
    unack := 3, receiver_win := 4, Q42 := true, SACK := false,
    countAcks := (1, 3) }

/-- Witness for C5: the third consecutive ACK 3 fires the fast retransmit,
emitting `buffer[3]` once and resetting the counter. -/
theorem C5_selective_repeat_fast_retransmit_witness :
    (ackIn exS5 { type := 1, options := 0, num := 3, win := 4 }).map
        (fun r => (r.1.countAcks, r.2))
      = some (((0 : Nat), (-1 : Int)), [mkData 0 3 [9] 4]) :=
  (C5_selective_repeat_fast_retransmit exS5
      { type := 1, options := 0, num := 3, win := 4 }
      rfl (by decide)).2.2.2 [9] (by decide) (by decide)

/-!
SACK retransmission (C7).
-/

/-- Modelled from the spec: the flattened set R of individually
acknowledged sequence numbers, each carried block expanded into its
modular sequence range. -/
def specSackR (M : Nat) (pkt : Seg) : List Nat :=
  ((sackBlocksOf pkt).map (fun bl => specExpandBlock M bl.1 bl.2)).flatten

/-- Mapping `· % M` over `range' l n` is the identity when the range stays
below `M`. -/
theorem map_mod_range'_of_lt (M l n : Nat) (h : l + n ≤ M) :
    (List.range' l n).map (fun x => x % M) = List.range' l n := by
  have : ∀ x ∈ List.range' l n, x % M = x := by
    intro x hx
    rw [List.mem_range'_1] at hx
    exact Nat.mod_eq_of_lt (by omega)
  calc (List.range' l n).map (fun x => x % M)
      = (List.range' l n).map (fun x => x) := List.map_congr_left this
    _ = List.range' l n := List.map_id' _

/-- Mapping `· % M` over `range' M k` shifts the range down to zero when
`k ≤ M`. -/
theorem map_mod_range'_shift (M k : Nat) (hk : k ≤ M) :
    (List.range' M k).map (fun x => x % M) = List.range' 0 k := by
  rw [List.range'_eq_map_range M k, List.range'_eq_map_range 0 k,
      List.map_map]
  apply List.map_congr_left
  intro x hx
  rw [List.mem_range] at hx
  simp only [Function.comp]
  rw [Nat.add_mod_left, Nat.mod_eq_of_lt (by omega)]
  omega

/-- The code's split-at-`M` expansion of one block equals the modular
sequence range of the claim, for in-range blocks. -/
theorem expandBlock_flatten (M l n : Nat) (hl : l < M) (hn : n ≤ M) :
    (expandBlock M l n).flatten = specExpandBlock M l n := by
  unfold expandBlock specExpandBlock pyRange
  by_cases h : l + n ≥ M
  · rw [if_pos h]
    have hlen : (List.range' l (M - l)).length = M - l := List.length_range' ..
    have hsplit : List.range' l n
        = List.range' l (M - l) ++ List.range' M (n - (M - l)) := by
      have hM : l + (M - l) = M := by omega
      have := List.range'_append_1 l (M - l) (n - (M - l))
      rw [hM] at this
      rw [this]
      congr 1
      omega
    rw [hsplit, List.map_append, map_mod_range'_of_lt M l (M - l) (by omega),
        map_mod_range'_shift M (n - (M - l)) (by omega)]
    simp [hlen]
  · rw [if_neg h]
    have : l + n - l = n := by omega
    rw [this]
    simp [map_mod_range'_of_lt M l n (by omega)]

/-- Flattening the per-block list-of-ranges expansion equals flattening
the per-block modular ranges, for in-range blocks. -/
theorem flatten_expand_aux (M : Nat) (L : List (Nat × Nat))
    (h : ∀ bl ∈ L, bl.1 < M ∧ bl.2 ≤ M) :
    ((L.map (fun bl => expandBlock M bl.1 bl.2)).flatten).flatten
      = (L.map (fun bl => specExpandBlock M bl.1 bl.2)).flatten := by
  induction L with
  | nil => simp
  | cons bl L ih =>
    simp only [List.map_cons, List.flatten_cons, List.flatten_append]
    rw [expandBlock_flatten M bl.1 bl.2 (h bl (by simp)).1 (h bl (by simp)).2,
        ih (fun b hb => h b (by simp [hb]))]

/-- The sender's flattened received-acks list equals the spec's set R for
in-range blocks. -/
theorem flatRecAcks_eq_spec (M : Nat) (pkt : Seg)
    (hbl : ∀ bl ∈ sackBlocksOf pkt, bl.1 < M ∧ bl.2 ≤ M) :
    flatRecAcks M pkt = specSackR M pkt :=
  flatten_expand_aux M (sackBlocksOf pkt) hbl

/-- Characterization of the SACK retransmission selection: with
`blen ∈ {1,2,3}`, in-range blocks, a nonempty R whose last expanded
element is a buffer key, the selection is exactly the non-SACKed keys of
the key list strictly before that element's index. -/
theorem sackRetrans_spec (M : Nat) (pkt : Seg) (b : List (Nat × Payload))
    (hb : pkt.blen = 1 ∨ pkt.blen = 2 ∨ pkt.blen = 3)
    (hbl : ∀ bl ∈ sackBlocksOf pkt, bl.1 < M ∧ bl.2 ≤ M)
    (hne : specSackR M pkt ≠ [])
    (hlast : (specSackR M pkt).getLastD 0 ∈ b.map (fun e => e.1)) :
    sackRetrans M pkt b
      = some (((b.map (fun e => e.1)).take
            ((b.map (fun e => e.1)).indexOf
              ((specSackR M pkt).getLastD 0))).filter
          (fun k => decide (k ∉ specSackR M pkt))) := by
  have hgl : (specSackR M pkt).getLast?
      = some ((specSackR M pkt).getLastD 0) := by
    cases hgl2 : (specSackR M pkt).getLast? with
    | none => exact absurd (List.getLast?_eq_none_iff.mp hgl2) hne
    | some x =>
      rw [List.getLastD_eq_getLast?, hgl2]
      rfl
  unfold sackRetrans
  rw [if_pos hb, flatRecAcks_eq_spec M pkt hbl]
  dsimp only
  rw [hgl]
  dsimp only
  rw [if_pos hlast]

/-- C7.  In SACK mode, on an ACK carrying `blen ∈ {1,2,3}` in-range
blocks whose expansion R is nonempty and whose last expanded element is
an in-flight key, `ACK_IN` retransmits as DATA exactly those buffer keys
at indices strictly below `final_idx` (the index of that last element in
the insertion-ordered key list) that are not in R, in key-list order;
keys at or beyond `final_idx` are not retransmitted. -/
theorem C7_sack_selective_retransmit
    (s : Sender) (pkt : Seg)
    (hQ : s.Q42 = false) (ht : ¬ pkt.type = 0) (ho : pkt.options = 1)
    (hb : pkt.blen = 1 ∨ pkt.blen = 2 ∨ pkt.blen = 3)
    (hbl : ∀ bl ∈ sackBlocksOf pkt, bl.1 < 2 ^ s.nbits ∧ bl.2 ≤ 2 ^ s.nbits)
    (hne : specSackR (2 ^ s.nbits) pkt ≠ [])
    (hlast : (specSackR (2 ^ s.nbits) pkt).getLastD 0
        ∈ s.buffer.map (fun e => e.1)) :
    (ackIn s pkt).map (fun r => r.2)
      = some ((((s.buffer.map (fun e => e.1)).take
            ((s.buffer.map (fun e => e.1)).indexOf
              ((specSackR (2 ^ s.nbits) pkt).getLastD 0))).filter
          (fun k => decide (k ∉ specSackR (2 ^ s.nbits) pkt))).map
        (fun k => mkData 1 k ((dictGet s.buffer k).getD []) s.win)) := by
  have ho0 : ¬ pkt.options = 0 := by omega
  simp only [ackIn, if_neg ht, if_neg ho0, if_pos ho]
  simp only [hQ, Bool.false_eq_true, if_false, if_true,
    sackRetrans_spec (2 ^ s.nbits) pkt s.buffer hb hbl hne hlast]
  rfl

/-- Witness sender for C7: SACK mode, buffer keys `[0, 1, 2, 3]`. -/
def exS7 : Sender :=
  { win := 4, nbits := 3, q := [],
    buffer := [(0, [0]), (1, [1]), (2, [2]), (3, [3])],
    current := 4, unack := 0, receiver_win := 4, Q42 := false, SACK := true }

/-- SACK ACK for the C7 witness: one block `(2, 2)`, so R = {2, 3}. -/
def exP7 : Seg :=
  { type := 1, options := 1, num := 0, win := 4,
    blen := 1, left1 := 2, length1 := 2 }

/-- Witness for C7: keys 0 and 1 (below the last SACKed key 3, not
SACKed) are retransmitted, keys 2 and 3 are not. -/
theorem C7_sack_selective_retransmit_witness :
    (ackIn exS7 exP7).map (fun r => r.2)
      = some [mkData 1 0 [0] 4, mkData 1 1 [1] 4] := by
  have h := C7_sack_selective_retransmit exS7 exP7 rfl (by decide) rfl
    (by decide) (by decide) (by decide) (by decide)
  rw [h]
  decide

/-!
Receiver window invariant (C3).
-/

/-- Closed form of the modular distance for reduced arguments. -/
theorem mdist_eq (M k n : Nat) (hk : k < M) (hn : n < M) :
    mdist M k n = if n ≤ k then k - n else k + M - n := by
  unfold mdist
  split_ifs with h
  · have h1 : k + M - n = (k - n) + M := by omega
    rw [h1, Nat.add_mod_right]
    exact Nat.mod_eq_of_lt (by omega)
  · exact Nat.mod_eq_of_lt (by omega)

/-- Distinct reduced sequence numbers are at positive modular distance. -/
theorem mdist_pos (M k n : Nat) (hk : k < M) (hn : n < M) (hne : k ≠ n) :
    1 ≤ mdist M k n := by
  rw [mdist_eq M k n hk hn]
  split_ifs <;> omega

/-- Advancing the reference point by one decreases the modular distance of
every other point by one. -/
theorem mdist_succ (M k n : Nat) (hk : k < M) (hn : n < M) (hne : k ≠ n) :
    mdist M k ((n + 1) % M) = mdist M k n - 1 := by
  by_cases h : n + 1 = M
  · have h0 : (n + 1) % M = 0 := by rw [h]; exact Nat.mod_self M
    rw [h0, mdist_eq M k 0 hk (by omega), mdist_eq M k n hk hn]
    split_ifs <;> omega
  · have h1 : (n + 1) % M = n + 1 := Nat.mod_eq_of_lt (by omega)
    rw [h1, mdist_eq M k (n + 1) hk (by omega), mdist_eq M k n hk hn]
    split_ifs <;> omega

/-- The receiver's out-of-order window condition (the integer comparison
of `DATA_IN`) bounds the modular distance by `[1, W-1]`. -/
theorem window_cond_mdist (M next win num : Nat) (hn : next < M)
    (hm : num < M)
    (hc1 : (if (num : Int) < (next : Int) then (next : Int) + 1 - M
            else (next : Int) + 1) ≤ (num : Int))
    (hc2 : (num : Int) ≤ (if (num : Int) < (next : Int)
            then (next : Int) + win - 1 - M else (next : Int) + win - 1)) :
    1 ≤ mdist M num next ∧ mdist M num next ≤ win - 1 := by
  rw [mdist_eq M num next hm hn]
  by_cases h : (num : Int) < (next : Int)
  · rw [if_pos h] at hc1 hc2
    split_ifs <;> omega
  · rw [if_neg h] at hc1 hc2
    split_ifs <;> omega

/-- The invariant carried through the receiver's drain loop: the running
`next` pointer is reduced, the two parallel lists agree in length with the
size counter, the sequence numbers are distinct and reduced, and every
buffered number is within `W − 1` of `next` (distance 0 is allowed
mid-loop, for the element about to be delivered). -/
def DrainInv (M win : Nat) (st : DrainSt) : Prop :=
  st.next < M
  ∧ st.seqs.Nodup
  ∧ st.size = st.seqs.length
  ∧ st.bufs.length = st.seqs.length
  ∧ ∀ k ∈ st.seqs, k < M ∧ mdist M k st.next ≤ win - 1

/-- One `forPass` preserves the drain invariant. -/
theorem forPass_inv (M win : Nat) (hM : 0 < M) :
    ∀ (fuel k : Nat) (st : DrainSt), DrainInv M win st →
      DrainInv M win (forPass M fuel k st) := by
  intro fuel
  induction fuel with
  | zero => intro k st h; simpa [forPass] using h
  | succ fuel ih =>
    intro k st h
    obtain ⟨h1, h2, h3, h4, h5⟩ := h
    rw [forPass]
    cases hs : st.seqs[k]? with
    | none => exact ⟨h1, h2, h3, h4, h5⟩
    | some s =>
      cases hb : st.bufs[k]? with
      | none => exact ⟨h1, h2, h3, h4, h5⟩
      | some b =>
        dsimp only
        by_cases he : s = st.next
        · rw [if_pos he]
          apply ih
          have hsm : s ∈ st.seqs := List.getElem?_mem hs
          have hbm : b ∈ st.bufs := List.getElem?_mem hb
          refine ⟨Nat.mod_lt _ hM, ?_, ?_, ?_, ?_⟩
          · simp only [if_pos hsm]
            exact h2.erase s
          · simp only [if_pos hsm]
            rw [List.length_erase_of_mem hsm, h3]
          · simp only [if_pos hsm]
            rw [List.length_erase_of_mem hbm,
                List.length_erase_of_mem hsm, h4]
          · simp only [if_pos hsm]
            intro k' hk'
            have hk'' : k' ∈ st.seqs := List.mem_of_mem_erase hk'
            have hne : k' ≠ s := ((h2.mem_erase_iff).mp hk').1
            obtain ⟨hkM, hkd⟩ := h5 k' hk''
            refine ⟨hkM, ?_⟩
            rw [he] at hne
            rw [mdist_succ M k' st.next hkM h1 hne]
            omega
        · rw [if_neg he]
          exact ih (k + 1) st ⟨h1, h2, h3, h4, h5⟩

/-- A `forPass` never lengthens the sequence-number list. -/
theorem forPass_len_le (M : Nat) :
    ∀ (fuel k : Nat) (st : DrainSt),
      (forPass M fuel k st).seqs.length ≤ st.seqs.length := by
  intro fuel
  induction fuel with
  | zero => intro k st; simp [forPass]
  | succ fuel ih =>
    intro k st
    rw [forPass]
    cases hs : st.seqs[k]? with
    | none => exact le_rfl
    | some s =>
      cases hb : st.bufs[k]? with
      | none => exact le_rfl
      | some b =>
        dsimp only
        by_cases he : s = st.next
        · rw [if_pos he]
          refine le_trans (ih _ _) ?_
          have hsm : s ∈ st.seqs := List.getElem?_mem hs
          simp only [if_pos hsm]
          exact (List.erase_sublist s st.seqs).length_le
        · rw [if_neg he]
          exact ih (k + 1) st

/-- A `forPass` that still has the current `next` ahead of the iterator
strictly shortens the sequence-number list (the first match is always
found and removed). -/
theorem forPass_decrease (M : Nat) :
    ∀ (fuel k : Nat) (st : DrainSt),
      st.bufs.length = st.seqs.length →
      st.next ∈ st.seqs.drop k →
      st.seqs.length - k ≤ fuel →
      (forPass M fuel k st).seqs.length < st.seqs.length := by
  intro fuel
  induction fuel with
  | zero =>
    intro k st _ hmem hfuel
    have hk : k < st.seqs.length := by
      by_contra hcon
      rw [List.drop_eq_nil_of_le (by omega)] at hmem
      simp at hmem
    omega
  | succ fuel ih =>
    intro k st hlen hmem hfuel
    have hk : k < st.seqs.length := by
      by_contra hcon
      rw [List.drop_eq_nil_of_le (by omega)] at hmem
      simp at hmem
    have hkb : k < st.bufs.length := by omega
    have hs : st.seqs[k]? = some st.seqs[k] := List.getElem?_eq_getElem hk
    have hb : st.bufs[k]? = some st.bufs[k] := List.getElem?_eq_getElem hkb
    rw [forPass, hs, hb]
    dsimp only
    by_cases he : st.seqs[k] = st.next
    · rw [if_pos he]
      have hsm : st.seqs[k] ∈ st.seqs := List.getElem_mem hk
      refine lt_of_le_of_lt (forPass_len_le M fuel (k + 1) _) ?_
      simp only [if_pos hsm]
      rw [List.length_erase_of_mem hsm]
      omega
    · rw [if_neg he]
      apply ih (k + 1) st hlen ?_ (by omega)
      have hdrop : st.seqs.drop k = st.seqs[k] :: st.seqs.drop (k + 1) :=
        List.drop_eq_getElem_cons hk
      rw [hdrop, List.mem_cons] at hmem
      rcases hmem with hmem | hmem
      · exact absurd hmem.symm he
      · exact hmem

/-- The drain loop preserves the drain invariant. -/
theorem whileDrain_inv (M win : Nat) (hM : 0 < M) :
    ∀ (fuel : Nat) (st : DrainSt), DrainInv M win st →
      DrainInv M win (whileDrain M fuel st) := by
  intro fuel
  induction fuel with
  | zero => intro st h; simpa [whileDrain] using h
  | succ fuel ih =>
    intro st h
    rw [whileDrain]
    split_ifs with h1 h2
    · exact ih _ (forPass_inv M win hM _ 0 st h)
    · exact h
    · exact h

/-- The receiver window invariant of the claim — every buffered key `k`
satisfies `1 ≤ (k − expected) mod M ≤ W − 1` and `expected` is never a
key — together with the auxiliary structural facts that make it
inductive: `expected` and the keys are reduced mod `M`, the window is at
most `M` (asserted at startup), the parallel lists agree with the size
counter, and keys are distinct. -/
def RInv (r : Receiver) : Prop :=
  r.next < 2 ^ r.nbits
  ∧ r.win ≤ 2 ^ r.nbits
  ∧ r.buffer_seq.Nodup
  ∧ r.buffer_size = r.buffer_seq.length
  ∧ r.buffer.length = r.buffer_seq.length
  ∧ (∀ k ∈ r.buffer_seq,
      k < 2 ^ r.nbits ∧ 1 ≤ mdist (2 ^ r.nbits) k r.next
        ∧ mdist (2 ^ r.nbits) k r.next ≤ r.win - 1)
  ∧ r.next ∉ r.buffer_seq

/-- With fuel exceeding the buffer population the drain loop terminates
with `next` no longer buffered. -/
theorem whileDrain_exit (M win : Nat) (hM : 0 < M) :
    ∀ (fuel : Nat) (st : DrainSt), DrainInv M win st →
      st.seqs.length < fuel →
      (whileDrain M fuel st).next ∉ (whileDrain M fuel st).seqs := by
  intro fuel
  induction fuel with
  | zero => intro st _ hfuel; omega
  | succ fuel ih =>
    intro st h hfuel
    rw [whileDrain]
    split_ifs with h1 h2
    · apply ih _ (forPass_inv M win hM _ 0 st h)
      have hdec := forPass_decrease M (st.seqs.length + 1) 0 st h.2.2.2.1
        (by simpa using h2) (by omega)
      omega
    · exact h2
    · have hempty : st.seqs = [] := by
        have := h.2.2.1
        have hsz : st.size = 0 := by omega
        rw [hsz] at this
        exact List.eq_nil_of_length_eq_zero this.symm
      rw [hempty]
      simp

/-- The in-order branch of `DATA_IN` (deliver, advance, drain) preserves
the receiver window invariant. -/
theorem drain_preserves (r1 : Receiver) (pay : Payload) (h : RInv r1) :
    RInv (let M := 2 ^ r1.nbits
          let st0 : DrainSt :=
            { next := (r1.next + 1) % M, size := r1.buffer_size,
              seqs := r1.buffer_seq, bufs := r1.buffer,
              out := r1.out ++ [pay] }
          let st := whileDrain M (st0.seqs.length + 1) st0
          { r1 with
            next := st.next,
            buffer_size := st.size,
            buffer_seq := st.seqs,
            buffer := st.bufs,
            out := st.out }) := by
  obtain ⟨hn, hw, hnd, hsz, hbl, hall, hnm⟩ := h
  have hM : 0 < 2 ^ r1.nbits := Nat.pos_pow_of_pos _ (by norm_num)
  set M := 2 ^ r1.nbits with hMdef
  set st0 : DrainSt :=
    { next := (r1.next + 1) % M, size := r1.buffer_size,
      seqs := r1.buffer_seq, bufs := r1.buffer,
      out := r1.out ++ [pay] } with hst0def
  have hst0 : DrainInv M r1.win st0 := by
    refine ⟨Nat.mod_lt _ hM, hnd, hsz, hbl, ?_⟩
    intro k hk
    obtain ⟨hkM, hk1, hk2⟩ := hall k hk
    have hkne : k ≠ r1.next := fun hEq => hnm (hEq ▸ hk)
    refine ⟨hkM, ?_⟩
    have hstep : mdist M k ((r1.next + 1) % M) = mdist M k r1.next - 1 :=
      mdist_succ M k r1.next hkM hn hkne
    calc mdist M k st0.next = mdist M k r1.next - 1 := hstep
      _ ≤ r1.win - 1 := by omega
  have hinv := whileDrain_inv M r1.win hM (st0.seqs.length + 1) st0 hst0
  have hexit := whileDrain_exit M r1.win hM (st0.seqs.length + 1) st0 hst0
    (by omega)
  obtain ⟨g1, g2, g3, g4, g5⟩ := hinv
  refine ⟨g1, hw, g2, g3, g4, ?_, hexit⟩
  intro k hk
  obtain ⟨hkM, hkd⟩ := g5 k hk
  have hkne : k ≠ (whileDrain M (st0.seqs.length + 1) st0).next :=
    fun hEq => hexit (hEq ▸ hk)
  exact ⟨hkM,
    mdist_pos M k (whileDrain M (st0.seqs.length + 1) st0).next hkM g1 hkne,
    hkd⟩

/-- The out-of-order acceptance branch of `DATA_IN` preserves the
receiver window invariant. -/
theorem accept_preserves (r1 : Receiver) (num : Nat) (pay : Payload)
    (h : RInv r1) (hnumM : num < 2 ^ r1.nbits) (hne : num ≠ r1.next)
    (hc1 : (if (num : Int) < (r1.next : Int)
            then (r1.next : Int) + 1 - ((2 ^ r1.nbits : Nat) : Int)
            else (r1.next : Int) + 1) ≤ (num : Int))
    (hc2 : (num : Int) ≤ (if (num : Int) < (r1.next : Int)
            then (r1.next : Int) + r1.win - 1 - ((2 ^ r1.nbits : Nat) : Int)
            else (r1.next : Int) + r1.win - 1))
    (hmem : num ∉ r1.buffer_seq) :
    RInv { r1 with
           buffer_size := r1.buffer_size + 1,
           buffer := r1.buffer ++ [pay],
           buffer_seq := r1.buffer_seq ++ [num] } := by
  obtain ⟨hn, hw, hnd, hsz, hbl, hall, hnm⟩ := h
  have hmd := window_cond_mdist (2 ^ r1.nbits) r1.next r1.win num hn hnumM
    hc1 hc2
  refine ⟨hn, hw, ?_, ?_, ?_, ?_, ?_⟩
  · rw [List.nodup_append]
    exact ⟨hnd, List.nodup_singleton _, by simpa using hmem⟩
  · simp [hsz]
  · simp [hbl]
  · intro k hk
    rw [List.mem_append, List.mem_singleton] at hk
    rcases hk with hk | hk
    · exact hall k hk
    · subst hk
      exact ⟨hnumM, hmd.1, hmd.2⟩
  · rw [List.mem_append, List.mem_singleton]
    push_neg
    exact ⟨hnm, fun hEq => hne hEq.symm⟩

/-- The tail of `DATA_IN` — ack-loss draw, ack emission, end-of-stream
transition — only touches fields outside the invariant. -/
theorem RInv_after_ack (r2 : Receiver) (al : Bool) (s : Seg)
    (h2 : RInv r2) :
    RInv (if al = true then (r2, ([] : List Seg))
          else (if r2.endReceiver ∧ r2.endNum = (r2.next : Int)
                then { r2 with ended := true } else r2, [s])).1 := by
  cases al with
  | true => simpa using h2
  | false =>
    simp only [Bool.false_eq_true, if_false]
    split_ifs with h3
    · exact h2
    · exact h2

/-- C3.  Every handling of an incoming segment by `DATA_IN` — loss,
protocol violation, in-order delivery with drain, out-of-order
acceptance, out-of-window drop — preserves the receiver window
invariant: every buffered key `k` satisfies
`1 ≤ (k − expected) mod 2^n_bits ≤ W − 1` and `expected` itself is never
a key.  `hnum` states that the segment carries a reduced sequence number,
as every segment built by the sender does. -/
theorem C3_receiver_window_invariant (r : Receiver) (pkt : Seg)
    (lost al : Bool) (h : RInv r) (hnum : pkt.num < 2 ^ r.nbits) :
    RInv (dataIn r pkt lost al).1 := by
  cases lost with
  | true => simpa [dataIn] using h
  | false =>
    by_cases ht : pkt.type = 0
    · simp only [dataIn, Bool.false_eq_true, if_false, if_pos ht]
      by_cases hend : pkt.payload.length < r.psize
      · rw [if_pos hend]
        dsimp only
        by_cases hio : pkt.num = r.next
        · rw [if_pos hio]
          exact RInv_after_ack _ al _ (drain_preserves _ pkt.payload h)
        · rw [if_neg hio]
          by_cases hacc :
              ((if (pkt.num : Int) < (r.next : Int)
                then (r.next : Int) + 1 - ((2 ^ r.nbits : Nat) : Int)
                else (r.next : Int) + 1) ≤ (pkt.num : Int)
              ∧ (pkt.num : Int) ≤ (if (pkt.num : Int) < (r.next : Int)
                then (r.next : Int) + r.win - 1 - ((2 ^ r.nbits : Nat) : Int)
                else (r.next : Int) + r.win - 1))
          · rw [if_pos hacc]
            by_cases hmem : pkt.num ∈ r.buffer_seq
            · rw [if_pos hmem]
              exact RInv_after_ack _ al _ h
            · rw [if_neg hmem]
              exact RInv_after_ack _ al _
                (accept_preserves _ pkt.num pkt.payload h hnum hio
                  hacc.1 hacc.2 hmem)
          · rw [if_neg hacc]
            exact RInv_after_ack _ al _ h
      · rw [if_neg hend]
        by_cases hio : pkt.num = r.next
        · rw [if_pos hio]
          exact RInv_after_ack _ al _ (drain_preserves _ pkt.payload h)
        · rw [if_neg hio]
          by_cases hacc :
              ((if (pkt.num : Int) < (r.next : Int)
                then (r.next : Int) + 1 - ((2 ^ r.nbits : Nat) : Int)
                else (r.next : Int) + 1) ≤ (pkt.num : Int)
              ∧ (pkt.num : Int) ≤ (if (pkt.num : Int) < (r.next : Int)
                then (r.next : Int) + r.win - 1 - ((2 ^ r.nbits : Nat) : Int)
                else (r.next : Int) + r.win - 1))
          · rw [if_pos hacc]
            by_cases hmem : pkt.num ∈ r.buffer_seq
            · rw [if_pos hmem]
              exact RInv_after_ack _ al _ h
            · rw [if_neg hmem]
              exact RInv_after_ack _ al _
                (accept_preserves _ pkt.num pkt.payload h hnum hio
                  hacc.1 hacc.2 hmem)
          · rw [if_neg hacc]
            exact RInv_after_ack _ al _ h
    · simpa [dataIn, ht] using h

/-- Witness for C3 at the concrete reachable receiver state `exR6` (which
satisfies the invariant) and the in-order segment `exP6`. -/
theorem C3_receiver_window_invariant_witness :
    RInv (dataIn exR6 exP6 false false).1 :=
  C3_receiver_window_invariant exR6 exP6 false false
    (by unfold RInv; decide) (by decide)

end GBNProof
